import Mathlib

/-!
Verification of the bracket-city LLM evaluation harness.

The development shallowly embeds the two Python source files:
* `eval-llm.py` — the interactive puzzle session engine
  (`PuzzleEvaluation.get_available_clues`, the command-processing body of
  `PuzzleEvaluation.run`, `PuzzleEvaluation.get_llm_response`,
  `PuzzleEvaluation.check_completion`);
* `calculate_scores.py` — the scoring function `calculate_score`.

Python strings are modelled as `List Char`; Python dictionaries with
insertion order as association lists; the mutable `self.state` dictionary
as the `EvalState` structure; raised exceptions as `Option.none`.
-/

namespace BracketCity

/-- A Python string, modelled as its list of characters. -/
abbrev Str := List Char

/-- `hasPrefix pat s` is Python's `s.startswith(pat)`: the test used to
implement substring search and `str.replace`. -/
def hasPrefix : Str → Str → Bool
  | [], _ => true
  | _ :: _, [] => false
  | p :: ps, c :: cs => p == c && hasPrefix ps cs

/-- `containsSub s pat` is Python's `pat in s` membership test on strings:
true iff `pat` occurs as a (possibly empty) contiguous substring of `s`. -/
def containsSub : Str → Str → Bool
  | [], pat => pat.isEmpty
  | c :: rest, pat => hasPrefix pat (c :: rest) || containsSub rest pat

/-- Python's `s.replace(pat, rep, 1)`: replace the first (leftmost)
occurrence of `pat` in `s` by `rep`; `s` unchanged when `pat` does not
occur. -/
def replaceFirst : Str → Str → Str → Str
  | [], pat, rep => if pat.isEmpty then rep else []
  | c :: rest, pat, rep =>
    if hasPrefix pat (c :: rest) then rep ++ (c :: rest).drop pat.length
    else c :: replaceFirst rest pat rep

/-- Python's `s.lower()` (on the ASCII answers and guesses the harness
compares). -/
def lowerStr (s : Str) : Str := s.map Char.toLower

/-- The bracketed placeholder form `f"[{clue}]"`. -/
def bracketed (clue : Str) : Str := '[' :: clue ++ [']']

/-- The puzzle document: `initialPuzzle`, the `solutions` mapping
(insertion-ordered, as a Python dict), and `puzzleSolution`. -/
structure Puzzle where
  initialPuzzle : Str
  solutions : List (Str × Str)
  puzzleSolution : Str
deriving DecidableEq

/-- `puzzle['solutions'][clue]`: `none` models a raised `KeyError`. -/
def solLookup (p : Puzzle) (clue : Str) : Option Str :=
  (p.solutions.find? (fun kv => kv.1 == clue)).map (fun kv => kv.2)

/-- The mutable fields of `self.state` that the session engine reads or
writes while processing commands (`eval-llm.py`, `initialize_new_state`). -/
structure EvalState where
  puzzle_state : Str
  peeks : List Str
  reveals : List Str
  failed_peeks : List Str
  failed_reveals : List Str
  failed_attempts : List Str
  repeat_reveals : Nat
  repeat_peeks : Nat
  wrong_guesses : Nat
  correct : Nat
  repeats : Nat
  completed : Bool
deriving DecidableEq

/-- The state set up by `initialize_new_state` followed by
`self.state['puzzle_state'] = ...initialPuzzle` in `__init__`. -/
def initState (p : Puzzle) : EvalState :=
  { puzzle_state := p.initialPuzzle
    peeks := []
    reveals := []
    failed_peeks := []
    failed_reveals := []
    failed_attempts := []
    repeat_reveals := 0
    repeat_peeks := 0
    wrong_guesses := 0
    correct := 0
    repeats := 0
    completed := false }

/-- `PuzzleEvaluation.get_available_clues`: iterate over the keys of the
solutions dict, keeping those for which `clue in puzzle_state` (the raw
clue id, not its bracketed form, as a substring). -/
def get_available_clues (p : Puzzle) (puzzle_state : Str) : List Str :=
  (p.solutions.map Prod.fst).filter (fun clue => containsSub puzzle_state clue)

/-- A parsed response, as produced by the `re.match` at the top of the
turn loop: `see` is matched literally before the regex; `invalid` models a
response matching neither. -/
inductive Command where
  | see : Command
  | tryCmd (target : Str) : Command
  | peek (target : Str) : Command
  | reveal (target : Str) : Command
  | invalid : Command
deriving DecidableEq

/-- The feedback prompt chosen by the command-processing branch: one
constructor per `prompt = ...` template in `PuzzleEvaluation.run`, carrying
the interpolated values. -/
inductive Feedback where
  | seePuzzle (text : Str) : Feedback
  | didNotUnderstand : Feedback
  | correctGuess (target : Str) (newText : Str) : Feedback
  | alreadyTriedWrong (target : Str) : Feedback
  | wrongGuess (target : Str) : Feedback
  | alreadyPeeked : Feedback
  | peekFirstLetter (target : Str) (letter : Char) : Feedback
  | alreadyFailedPeek : Feedback
  | cantPeek (target : Str) : Feedback
  | cannotRevealComposite (target : Str) : Feedback
  | alreadyRevealed : Feedback
  | revealAnswer (target : Str) (answer : Str) (newText : Str) : Feedback
  | alreadyFailedReveal : Feedback
  | cannotReveal (target : Str) : Feedback
deriving DecidableEq

/-- The `for clue in available:` loop of the `try` branch: look each
available clue's answer up and compare case-insensitively with the guess.
Outer `none` models a `KeyError` escaping the loop; `some none` means the
loop finished without a match; `some (some (clue, ans))` is the first
match. -/
def tryFind (p : Puzzle) (target : Str) : List Str → Option (Option (Str × Str))
  | [] => some none
  | clue :: rest =>
    match solLookup p clue with
    | none => none
    | some ans =>
      if lowerStr ans == lowerStr target then some (some (clue, ans))
      else tryFind p target rest

/-- Lines 180–183 of `run`: after `save_state()`, set
`self.state['completed'] = True` when `check_completion` holds (it is never
reset to `False`). -/
def checkCompletion (p : Puzzle) (s : EvalState) : EvalState :=
  if s.puzzle_state = p.puzzleSolution then { s with completed := true } else s

/-- The `try` branch of `run` (lines 114–133), followed by the completion
check. Returns the updated state, the updated `available` local, and the
feedback prompt. -/
def tryStep (p : Puzzle) (s : EvalState) (available : List Str) (target : Str) :
    Option (EvalState × List Str × Feedback) :=
  match tryFind p target available with
  | none => none
  | some (some (clue, ans)) =>
    let s1 := { s with
      puzzle_state := replaceFirst s.puzzle_state (bracketed clue) ans
      correct := s.correct + 1 }
    some (checkCompletion p s1, get_available_clues p s1.puzzle_state,
      .correctGuess target s1.puzzle_state)
  | some none =>
    if target ∈ s.failed_attempts then
      some (checkCompletion p { s with repeats := s.repeats + 1 }, available,
        .alreadyTriedWrong target)
    else
      some (checkCompletion p { s with
          wrong_guesses := s.wrong_guesses + 1
          failed_attempts := s.failed_attempts ++ [target] },
        available, .wrongGuess target)

/-- The `peek` branch of `run` (lines 135–150), followed by the completion
check. `puzzle['solutions'][target][0]` is modelled by `solLookup` plus
`List.head?`; `none` models the raised `KeyError`/`IndexError`. -/
def peekStep (p : Puzzle) (s : EvalState) (available : List Str) (target : Str) :
    Option (EvalState × List Str × Feedback) :=
  if target ∈ available then
    if target ∈ s.peeks then
      some (checkCompletion p { s with repeat_peeks := s.repeat_peeks + 1 }, available,
        .alreadyPeeked)
    else
      match solLookup p target with
      | none => none
      | some ans =>
        match ans.head? with
        | none => none
        | some c =>
          some (checkCompletion p { s with peeks := s.peeks ++ [target] }, available,
            .peekFirstLetter target c)
  else
    if target ∈ s.failed_peeks then
      some (checkCompletion p { s with repeat_peeks := s.repeat_peeks + 1 }, available,
        .alreadyFailedPeek)
    else
      some (checkCompletion p { s with failed_peeks := s.failed_peeks ++ [target] },
        available, .cantPeek target)

/-- The `reveal` branch of `run` (lines 152–176), followed by the
completion check. Note two faithful quirks of the source: the bracket
guard runs `self.state['failed_reveals'] += target`, which appends each
character of `target` as a separate element; and in the unavailable-target
branch `failed_reveals.append(target)` sits outside the inner if/else, so
it also runs on repeats. -/
def revealStep (p : Puzzle) (s : EvalState) (available : List Str) (target : Str) :
    Option (EvalState × List Str × Feedback) :=
  if '[' ∈ target then
    some (checkCompletion p { s with
        failed_reveals := s.failed_reveals ++ target.map (fun c => [c]) },
      available, .cannotRevealComposite target)
  else if target ∈ available then
    if target ∈ s.reveals then
      some (checkCompletion p { s with repeat_reveals := s.repeat_reveals + 1 }, available,
        .alreadyRevealed)
    else
      match solLookup p target with
      | none => none
      | some ans =>
        let s1 := { s with
          reveals := s.reveals ++ [target]
          puzzle_state := replaceFirst s.puzzle_state (bracketed target) ans }
        some (checkCompletion p s1, get_available_clues p s1.puzzle_state,
          .revealAnswer target ans s1.puzzle_state)
  else
    if target ∈ s.failed_reveals then
      some (checkCompletion p { s with
          repeat_reveals := s.repeat_reveals + 1
          failed_reveals := s.failed_reveals ++ [target] },
        available, .alreadyFailedReveal)
    else
      some (checkCompletion p { s with failed_reveals := s.failed_reveals ++ [target] },
        available, .cannotReveal target)

/-- One iteration of the turn loop of `PuzzleEvaluation.run`, applied to
the pair (state, `available` local variable). `see` and unparsable
responses `continue` before `save_state`/`check_completion`; the three
command branches fall through to the completion check inside the step
functions above. -/
def stepTurn (p : Puzzle) (sa : EvalState × List Str) (cmd : Command) :
    Option (EvalState × List Str × Feedback) :=
  match cmd with
  | .see => some (sa.1, sa.2, .seePuzzle sa.1.puzzle_state)
  | .invalid => some (sa.1, sa.2, .didNotUnderstand)
  | .tryCmd target => tryStep p sa.1 sa.2 target
  | .peek target => peekStep p sa.1 sa.2 target
  | .reveal target => revealStep p sa.1 sa.2 target

/-- `max_guesses = 150` in `PuzzleEvaluation.run`. -/
def max_guesses : Nat := 150

/-- The `for _ in tqdm(range(max_guesses))` loop, from turn index `i` with
`fuel` iterations left. The response obtained on turn `i` is `resp i`;
`none` propagates a raised exception. The loop body contains no `break`:
it only ends when the fuel (the range) is exhausted or an exception
escapes. -/
def runFrom (p : Puzzle) (resp : Nat → Command) :
    Nat → Nat → EvalState × List Str → Option (EvalState × List Str)
  | _, 0, sa => some sa
  | i, fuel + 1, sa =>
    match stepTurn p sa (resp i) with
    | none => none
    | some (s', a', _) => runFrom p resp (i + 1) fuel (s', a')

/-- `PuzzleEvaluation.run`: compute the initial `available` list, then run
the turn loop for `max_guesses` turns. -/
def run (p : Puzzle) (resp : Nat → Command) : Option (EvalState × List Str) :=
  runFrom p resp 0 max_guesses (initState p, get_available_clues p p.initialPuzzle)

/-- `PuzzleEvaluation.get_llm_response`'s retry loop, with the attempt
outcomes supplied as `outcomes : Nat → Option Str` (`none` = the model
raised `llm.errors.ModelError`). Returns the response (or `none` when the
error is re-raised) together with the list of `time.sleep` durations
performed, in order. -/
def llmLoop (outcomes : Nat → Option Str) (attempt : Nat) (cf : Nat)
    (sleeps : List Nat) : Option Str × List Nat :=
  match outcomes attempt with
  | some r => (some r, sleeps)
  | none =>
    if _h : 5 ≤ cf then (none, sleeps)
    else llmLoop outcomes (attempt + 1) (cf + 1) (sleeps ++ [1 + 5 * cf])
termination_by 6 - cf
decreasing_by omega

/-- `PuzzleEvaluation.get_llm_response`: start with
`consecutive_failures = 0` and no sleeps performed. -/
def get_llm_response (outcomes : Nat → Option Str) : Option Str × List Nat :=
  llmLoop outcomes 0 0 []

/-- The counter fields of a persisted score record that
`calculate_scores.py` reads. -/
structure ScoreData where
  wrong_guesses : Nat
  repeats : Nat
  peeks : List Str
  repeat_peeks : Nat
  reveals : List Str
  repeat_reveals : Nat
  completed : Bool
deriving DecidableEq

/-- `calculate_score` from `calculate_scores.py`, translated
statement-for-statement. -/
def calculate_score (data : ScoreData) : Int :=
  let score : Int := 500
  let score := score - (data.wrong_guesses : Int) * 1
  let score := score - (data.repeats : Int) * 2
  let unique_peeks : Int := data.peeks.length
  let repeat_peeks : Int := data.repeat_peeks
  let peek_cost := unique_peeks * 4 + repeat_peeks * 8
  let score := score - peek_cost
  let unique_reveals : Int := data.reveals.length
  let repeat_reveals : Int := data.repeat_reveals
  let reveal_cost := unique_reveals * 15 + repeat_reveals * 45
  let score := score - reveal_cost
  let score := if !data.completed then score - 500 else score
  score

/-! ## Basic lemmas about the string primitives -/

theorem hasPrefix_iff (pat s : Str) : hasPrefix pat s = true ↔ ∃ t, pat ++ t = s := by
  induction pat generalizing s with
  | nil => simp [hasPrefix]
  | cons p ps ih =>
    cases s with
    | nil => simp [hasPrefix]
    | cons c cs =>
      simp only [hasPrefix, Bool.and_eq_true, beq_iff_eq, ih, List.cons_append,
        List.cons.injEq]
      constructor
      · rintro ⟨rfl, t, rfl⟩
        exact ⟨t, rfl, rfl⟩
      · rintro ⟨t, rfl, rfl⟩
        exact ⟨rfl, t, rfl⟩

theorem dropAppend (u v : Str) : (u ++ v).drop u.length = v := by
  induction u with
  | nil => simp
  | cons x xs ih => simp [ih]

/-! ## Lemmas about `checkCompletion` -/

@[simp] theorem checkCompletion_puzzle_state (p : Puzzle) (s : EvalState) :
    (checkCompletion p s).puzzle_state = s.puzzle_state := by
  unfold checkCompletion; split <;> rfl

@[simp] theorem checkCompletion_peeks (p : Puzzle) (s : EvalState) :
    (checkCompletion p s).peeks = s.peeks := by
  unfold checkCompletion; split <;> rfl

@[simp] theorem checkCompletion_reveals (p : Puzzle) (s : EvalState) :
    (checkCompletion p s).reveals = s.reveals := by
  unfold checkCompletion; split <;> rfl

@[simp] theorem checkCompletion_failed_peeks (p : Puzzle) (s : EvalState) :
    (checkCompletion p s).failed_peeks = s.failed_peeks := by
  unfold checkCompletion; split <;> rfl

@[simp] theorem checkCompletion_failed_reveals (p : Puzzle) (s : EvalState) :
    (checkCompletion p s).failed_reveals = s.failed_reveals := by
  unfold checkCompletion; split <;> rfl

@[simp] theorem checkCompletion_failed_attempts (p : Puzzle) (s : EvalState) :
    (checkCompletion p s).failed_attempts = s.failed_attempts := by
  unfold checkCompletion; split <;> rfl

@[simp] theorem checkCompletion_repeat_reveals (p : Puzzle) (s : EvalState) :
    (checkCompletion p s).repeat_reveals = s.repeat_reveals := by
  unfold checkCompletion; split <;> rfl

@[simp] theorem checkCompletion_repeat_peeks (p : Puzzle) (s : EvalState) :
    (checkCompletion p s).repeat_peeks = s.repeat_peeks := by
  unfold checkCompletion; split <;> rfl

@[simp] theorem checkCompletion_wrong_guesses (p : Puzzle) (s : EvalState) :
    (checkCompletion p s).wrong_guesses = s.wrong_guesses := by
  unfold checkCompletion; split <;> rfl

@[simp] theorem checkCompletion_correct (p : Puzzle) (s : EvalState) :
    (checkCompletion p s).correct = s.correct := by
  unfold checkCompletion; split <;> rfl

@[simp] theorem checkCompletion_repeats (p : Puzzle) (s : EvalState) :
    (checkCompletion p s).repeats = s.repeats := by
  unfold checkCompletion; split <;> rfl

theorem checkCompletion_completed_of_ne (p : Puzzle) (s : EvalState)
    (h : s.puzzle_state ≠ p.puzzleSolution) :
    (checkCompletion p s).completed = s.completed := by
  unfold checkCompletion
  rw [if_neg h]

theorem checkCompletion_completed_of_eq (p : Puzzle) (s : EvalState)
    (h : s.puzzle_state = p.puzzleSolution) :
    (checkCompletion p s).completed = true := by
  unfold checkCompletion
  rw [if_pos h]

/-! ## `replaceFirst` replaces exactly the first occurrence -/

theorem replaceFirst_cons (c : Char) (rest pat rep : Str) :
    replaceFirst (c :: rest) pat rep =
      if hasPrefix pat (c :: rest) then rep ++ (c :: rest).drop pat.length
      else c :: replaceFirst rest pat rep := rfl

theorem replaceFirst_first_occurrence (pat rep u v : Str) (hne : pat ≠ [])
    (hmin : ∀ u' v', u ++ pat ++ v = u' ++ pat ++ v' → u.length ≤ u'.length) :
    replaceFirst (u ++ pat ++ v) pat rep = u ++ rep ++ v := by
  induction u with
  | nil =>
    cases pat with
    | nil => exact absurd rfl hne
    | cons q qs =>
      have hpre : hasPrefix (q :: qs) (q :: (qs ++ v)) = true := by
        refine (hasPrefix_iff _ _).2 ⟨v, ?_⟩
        simp only [List.cons_append]
      simp only [List.nil_append, List.cons_append]
      rw [replaceFirst_cons, if_pos hpre]
      have hdrop : (q :: (qs ++ v)).drop (q :: qs).length = v := by
        have h := dropAppend (q :: qs) v
        simp only [List.cons_append] at h
        exact h
      rw [hdrop]
  | cons x u' ih =>
    have hnp : ¬ hasPrefix pat (x :: (u' ++ pat ++ v)) = true := by
      intro hpre
      obtain ⟨t, ht⟩ := (hasPrefix_iff _ _).1 hpre
      have hx : (x :: u') ++ pat ++ v = [] ++ pat ++ t := by
        rw [List.nil_append]
        simp only [List.cons_append]
        exact ht.symm
      have h0 := hmin [] t hx
      simp at h0
    have hmin' : ∀ u'' v'', u' ++ pat ++ v = u'' ++ pat ++ v'' →
        u'.length ≤ u''.length := by
      intro u'' v'' h
      have hx : (x :: u') ++ pat ++ v = (x :: u'') ++ pat ++ v'' := by
        simp only [List.cons_append]
        rw [h]
      have h2 := hmin (x :: u'') v'' hx
      simp only [List.length_cons] at h2
      omega
    simp only [List.cons_append]
    rw [replaceFirst_cons, if_neg hnp, ih hmin']

/-! ## Characterising the `try` loop -/

theorem tryFind_isSome (p : Puzzle) (target : Str) (a : List Str)
    (hA : ∀ c ∈ a, (solLookup p c).isSome = true) :
    (tryFind p target a).isSome = true := by
  induction a with
  | nil => rfl
  | cons c rest ih =>
    have hc := hA c (List.mem_cons_self c rest)
    cases hsl : solLookup p c with
    | none => rw [hsl] at hc; simp at hc
    | some ans =>
      simp only [tryFind, hsl]
      split
      · rfl
      · exact ih (fun c' hc' => hA c' (List.mem_cons_of_mem _ hc'))

theorem tryFind_eq_some_some (p : Puzzle) (target : Str) (a : List Str)
    (clue ans : Str) (h : tryFind p target a = some (some (clue, ans))) :
    clue ∈ a ∧ solLookup p clue = some ans ∧ lowerStr ans = lowerStr target := by
  induction a with
  | nil => simp [tryFind] at h
  | cons c rest ih =>
    cases hsl : solLookup p c with
    | none =>
      simp only [tryFind, hsl] at h
      exact Option.noConfusion h
    | some ans' =>
      simp only [tryFind, hsl] at h
      by_cases hm : (lowerStr ans' == lowerStr target) = true
      · rw [if_pos hm] at h
        cases Option.some.inj (Option.some.inj h)
        exact ⟨List.mem_cons_self _ _, hsl, by simpa using hm⟩
      · rw [if_neg hm] at h
        obtain ⟨h1, h2, h3⟩ := ih h
        exact ⟨List.mem_cons_of_mem _ h1, h2, h3⟩

theorem tryFind_eq_some_none (p : Puzzle) (target : Str) (a : List Str)
    (h : tryFind p target a = some none) :
    ∀ c ∈ a, ∀ ans, solLookup p c = some ans → lowerStr ans ≠ lowerStr target := by
  induction a with
  | nil => intro c hc; simp at hc
  | cons c rest ih =>
    intro c' hc' ans hans
    cases hsl : solLookup p c with
    | none =>
      simp only [tryFind, hsl] at h
      exact Option.noConfusion h
    | some ans' =>
      simp only [tryFind, hsl] at h
      by_cases hm : (lowerStr ans' == lowerStr target) = true
      · rw [if_pos hm] at h; exact absurd h (by simp)
      · rw [if_neg hm] at h
        rcases List.mem_cons.1 hc' with rfl | hmem
        · rw [hsl] at hans
          injection hans with hx
          subst hx
          simpa using hm
        · exact ih h c' hmem ans hans

/-! ## Claim C1: availability -/

/-- Claim C1 (amended): a clue id is reported available iff it is a key of
the solutions mapping and the *unbracketed* clue id itself occurs as a
literal substring of the current puzzle text (the source tests
`clue in puzzle_state`, not `f"[{clue}]" in puzzle_state`). -/
theorem availability_unbracketed_substring (p : Puzzle) (t : Str) (clue : Str) :
    clue ∈ get_available_clues p t ↔
      clue ∈ p.solutions.map Prod.fst ∧ containsSub t clue = true := by
  simp [get_available_clues, List.mem_filter]

/-- Claim C1 (counterexample): with puzzle text `"cat scat"` and a clue id
`"cat"` in the solutions mapping, the resolver reports `"cat"` available
although its bracketed form `"[cat]"` is not a substring of the text. -/
theorem availability_bracketed_counterexample :
    get_available_clues
        { initialPuzzle := "cat scat".toList
          solutions := [("cat".toList, "x".toList)]
          puzzleSolution := "x".toList } "cat scat".toList = ["cat".toList] ∧
      containsSub "cat scat".toList (bracketed "cat".toList) = false := by
  decide

/-! ## Claim C2: the scoring formula -/

/-- Claim C2: `calculate_score` equals the closed-form penalty formula
(500 minus 1 per wrong guess, 2 per repeat, 4 per unique peek, 8 per
repeat peek, 15 per unique reveal, 45 per repeat reveal, minus a further
500 when not completed); the record (wrong=2, repeats=1, peek=1, rpeek=0,
reveal=0, rreveal=0, completed=True) scores 492, the same record with
completed=False scores -8, which is negative. Determinism is immediate:
`calculate_score` is a function of the record. -/
theorem calculate_score_formula :
    (∀ d : ScoreData, calculate_score d =
        500 - (d.wrong_guesses : Int) * 1 - (d.repeats : Int) * 2
          - (d.peeks.length : Int) * 4 - (d.repeat_peeks : Int) * 8
          - (d.reveals.length : Int) * 15 - (d.repeat_reveals : Int) * 45
          - (if d.completed = true then 0 else 500)) ∧
      calculate_score
        { wrong_guesses := 2, repeats := 1, peeks := ["mat".toList], repeat_peeks := 0
          reveals := [], repeat_reveals := 0, completed := true } = 492 ∧
      calculate_score
        { wrong_guesses := 2, repeats := 1, peeks := ["mat".toList], repeat_peeks := 0
          reveals := [], repeat_reveals := 0, completed := false } = -8 ∧
      calculate_score
        { wrong_guesses := 2, repeats := 1, peeks := ["mat".toList], repeat_peeks := 0
          reveals := [], repeat_reveals := 0, completed := false } < 0 := by
  refine ⟨fun d => ?_, by decide, by decide, by decide⟩
  unfold calculate_score
  cases hc : d.completed <;> simp [hc] <;> ring

/-! ## Claim C5: the `try` command -/

/-- Claim C5: a `try` never raises; it succeeds iff some currently
available clue's answer is case-insensitively equal to the argument; on
success the first literal occurrence of that clue's bracketed placeholder
is replaced by its answer, `correct` is incremented and the available list
is recomputed; on failure, a previously recorded exact argument increments
`repeats`, a new one increments `wrong_guesses` and is recorded. -/
theorem try_command_spec (p : Puzzle) (s : EvalState) (a : List Str) (target : Str)
    (hA : ∀ c ∈ a, (solLookup p c).isSome = true) :
    (∃ r, stepTurn p (s, a) (.tryCmd target) = some r) ∧
    ((∃ c ∈ a, ∃ ans, solLookup p c = some ans ∧ lowerStr ans = lowerStr target) →
      ∃ clue ans s' a' f, stepTurn p (s, a) (.tryCmd target) = some (s', a', f) ∧
        clue ∈ a ∧ solLookup p clue = some ans ∧ lowerStr ans = lowerStr target ∧
        s'.puzzle_state = replaceFirst s.puzzle_state (bracketed clue) ans ∧
        (∀ u v, s.puzzle_state = u ++ bracketed clue ++ v →
          (∀ u' v', s.puzzle_state = u' ++ bracketed clue ++ v' → u.length ≤ u'.length) →
          s'.puzzle_state = u ++ ans ++ v) ∧
        s'.correct = s.correct + 1 ∧
        s'.wrong_guesses = s.wrong_guesses ∧ s'.repeats = s.repeats ∧
        s'.failed_attempts = s.failed_attempts ∧
        a' = get_available_clues p s'.puzzle_state) ∧
    ((¬ ∃ c ∈ a, ∃ ans, solLookup p c = some ans ∧ lowerStr ans = lowerStr target) →
      ∃ s' f, stepTurn p (s, a) (.tryCmd target) = some (s', a, f) ∧
        s'.puzzle_state = s.puzzle_state ∧ s'.correct = s.correct ∧
        (target ∈ s.failed_attempts →
          s'.repeats = s.repeats + 1 ∧ s'.wrong_guesses = s.wrong_guesses ∧
            s'.failed_attempts = s.failed_attempts) ∧
        (target ∉ s.failed_attempts →
          s'.wrong_guesses = s.wrong_guesses + 1 ∧ s'.repeats = s.repeats ∧
            s'.failed_attempts = s.failed_attempts ++ [target])) := by
  have hts := tryFind_isSome p target a hA
  cases htf : tryFind p target a with
  | none => rw [htf] at hts; simp at hts
  | some o =>
    cases o with
    | none =>
      have hnomatch := tryFind_eq_some_none p target a htf
      refine ⟨?_, ?_, ?_⟩
      · by_cases hmem : target ∈ s.failed_attempts
        · exact ⟨_, by simp only [stepTurn, tryStep, htf]; rw [if_pos hmem]⟩
        · exact ⟨_, by simp only [stepTurn, tryStep, htf]; rw [if_neg hmem]⟩
      · rintro ⟨c, hc, ans, hans, hlow⟩
        exact absurd hlow (hnomatch c hc ans hans)
      · intro _
        by_cases hmem : target ∈ s.failed_attempts
        · refine ⟨_, _, by simp only [stepTurn, tryStep, htf]; rw [if_pos hmem], ?_⟩
          simp [hmem]
        · refine ⟨_, _, by simp only [stepTurn, tryStep, htf]; rw [if_neg hmem], ?_⟩
          simp [hmem]
    | some ca =>
      obtain ⟨clue, ans⟩ := ca
      obtain ⟨hmem, hsl, hlow⟩ := tryFind_eq_some_some p target a clue ans htf
      have hstep : stepTurn p (s, a) (.tryCmd target) =
          some (checkCompletion p { s with
              puzzle_state := replaceFirst s.puzzle_state (bracketed clue) ans
              correct := s.correct + 1 },
            get_available_clues p (replaceFirst s.puzzle_state (bracketed clue) ans),
            .correctGuess target (replaceFirst s.puzzle_state (bracketed clue) ans)) := by
        simp only [stepTurn, tryStep, htf]
      refine ⟨⟨_, hstep⟩, ?_, ?_⟩
      · intro _
        refine ⟨clue, ans, _, _, _, hstep, hmem, hsl, hlow, by simp, ?_, by simp, by simp,
          by simp, by simp, by simp⟩
        intro u v hsplit hmin
        have hrw : (checkCompletion p { s with
            puzzle_state := replaceFirst s.puzzle_state (bracketed clue) ans
            correct := s.correct + 1 }).puzzle_state
            = replaceFirst s.puzzle_state (bracketed clue) ans := by simp
        rw [hrw, hsplit]
        refine replaceFirst_first_occurrence _ _ _ _ (by simp [bracketed]) ?_
        intro u' v' h
        exact hmin u' v' (hsplit.symm ▸ h)
      · rintro hno
        exact absurd ⟨clue, hmem, ans, hsl, hlow⟩ hno

/-- Claim C5, witness: a concrete one-clue puzzle where `try X` matches the
answer `x` case-insensitively. -/
theorem try_command_spec_witness :
    ∃ r, stepTurn
        { initialPuzzle := "[A]".toList
          solutions := [("A".toList, "x".toList)]
          puzzleSolution := "x".toList }
        (initState
          { initialPuzzle := "[A]".toList
            solutions := [("A".toList, "x".toList)]
            puzzleSolution := "x".toList }, ["A".toList])
        (.tryCmd "X".toList) = some r :=
  (try_command_spec _ _ _ _ (by decide)).1

/-! ## Claim C6: the nested-reveal guard -/

/-- Claim C6: a `reveal` whose argument contains a bracket character never
mutates `puzzle_state`, never appends to the unique-reveals record, and
mutates no score counter (the guard only extends the `failed_reveals`
bookkeeping list). -/
theorem reveal_bracket_guard (p : Puzzle) (s : EvalState) (a : List Str) (target : Str)
    (h : '[' ∈ target) :
    ∃ s' f, stepTurn p (s, a) (.reveal target) = some (s', a, f) ∧
      s'.puzzle_state = s.puzzle_state ∧ s'.reveals = s.reveals ∧ s'.peeks = s.peeks ∧
      s'.wrong_guesses = s.wrong_guesses ∧ s'.repeats = s.repeats ∧
      s'.repeat_peeks = s.repeat_peeks ∧ s'.repeat_reveals = s.repeat_reveals ∧
      s'.correct = s.correct ∧
      (s.puzzle_state ≠ p.puzzleSolution → s'.completed = s.completed) := by
  have hstep : stepTurn p (s, a) (.reveal target) =
      some (checkCompletion p { s with
          failed_reveals := s.failed_reveals ++ target.map (fun c => [c]) },
        a, .cannotRevealComposite target) := by
    simp only [stepTurn, revealStep]
    rw [if_pos h]
  refine ⟨_, _, hstep, by simp, by simp, by simp, by simp, by simp, by simp, by simp,
    by simp, ?_⟩
  intro hne
  exact checkCompletion_completed_of_ne p _ hne

/-- Claim C6, witness: revealing the composite argument `"[A]"`. -/
theorem reveal_bracket_guard_witness :
    ∃ s' f, stepTurn
        { initialPuzzle := "[A]".toList
          solutions := [("A".toList, "x".toList)]
          puzzleSolution := "x".toList }
        (initState
          { initialPuzzle := "[A]".toList
            solutions := [("A".toList, "x".toList)]
            puzzleSolution := "x".toList }, ["A".toList])
        (.reveal "[A]".toList) = some (s', ["A".toList], f) ∧
      s'.puzzle_state = "[A]".toList ∧ s'.reveals = [] := by
  obtain ⟨s', f, hstep, hps, hrv, _⟩ :=
    reveal_bracket_guard
      { initialPuzzle := "[A]".toList
        solutions := [("A".toList, "x".toList)]
        puzzleSolution := "x".toList }
      (initState
        { initialPuzzle := "[A]".toList
          solutions := [("A".toList, "x".toList)]
          puzzleSolution := "x".toList })
      ["A".toList] "[A]".toList (by decide)
  exact ⟨s', f, hstep, hps, hrv⟩

/-! ## Claim C7: at-most-once charge for peeks and reveals -/

/-- Claim C7: peeking or revealing an already-peeked/revealed available
clue increments only the corresponding repeat counter and leaves the base
(unique) record unchanged; the first peek of an available clue appends it
to the peek record and discloses the first character of its answer. -/
theorem repeat_charge_spec (p : Puzzle) (s : EvalState) (a : List Str) (target : Str)
    (hmem : target ∈ a) :
    (target ∈ s.peeks →
      ∃ s' f, stepTurn p (s, a) (.peek target) = some (s', a, f) ∧
        s'.repeat_peeks = s.repeat_peeks + 1 ∧ s'.peeks = s.peeks ∧
        s'.reveals = s.reveals) ∧
    (target ∉ s.peeks → ∀ ans, solLookup p target = some ans →
      ∀ c0, ans.head? = some c0 →
      ∃ s', stepTurn p (s, a) (.peek target) =
          some (s', a, .peekFirstLetter target c0) ∧
        s'.peeks = s.peeks ++ [target] ∧ s'.repeat_peeks = s.repeat_peeks) ∧
    ('[' ∉ target → target ∈ s.reveals →
      ∃ s' f, stepTurn p (s, a) (.reveal target) = some (s', a, f) ∧
        s'.repeat_reveals = s.repeat_reveals + 1 ∧ s'.reveals = s.reveals ∧
        s'.peeks = s.peeks) ∧
    ('[' ∉ target → target ∉ s.reveals → ∀ ans, solLookup p target = some ans →
      ∃ s' a', stepTurn p (s, a) (.reveal target) = some (s', a',
          .revealAnswer target ans (replaceFirst s.puzzle_state (bracketed target) ans)) ∧
        s'.reveals = s.reveals ++ [target] ∧ s'.repeat_reveals = s.repeat_reveals) := by
  refine ⟨?_, ?_, ?_, ?_⟩
  · intro hp
    have hstep : stepTurn p (s, a) (.peek target) =
        some (checkCompletion p { s with repeat_peeks := s.repeat_peeks + 1 }, a,
          .alreadyPeeked) := by
      simp only [stepTurn, peekStep]
      rw [if_pos hmem, if_pos hp]
    exact ⟨_, _, hstep, by simp, by simp, by simp⟩
  · intro hp ans hans c0 hc0
    have hstep : stepTurn p (s, a) (.peek target) =
        some (checkCompletion p { s with peeks := s.peeks ++ [target] }, a,
          .peekFirstLetter target c0) := by
      simp only [stepTurn, peekStep, hans, hc0]
      rw [if_pos hmem, if_neg hp]
    exact ⟨_, hstep, by simp, by simp⟩
  · intro hbr hr
    have hstep : stepTurn p (s, a) (.reveal target) =
        some (checkCompletion p { s with repeat_reveals := s.repeat_reveals + 1 }, a,
          .alreadyRevealed) := by
      simp only [stepTurn, revealStep]
      rw [if_neg hbr, if_pos hmem, if_pos hr]
    exact ⟨_, _, hstep, by simp, by simp, by simp⟩
  · intro hbr hr ans hans
    have hstep : stepTurn p (s, a) (.reveal target) =
        some (checkCompletion p { s with
            reveals := s.reveals ++ [target]
            puzzle_state := replaceFirst s.puzzle_state (bracketed target) ans },
          get_available_clues p (replaceFirst s.puzzle_state (bracketed target) ans),
          .revealAnswer target ans (replaceFirst s.puzzle_state (bracketed target) ans)) := by
      simp only [stepTurn, revealStep, hans]
      rw [if_neg hbr, if_pos hmem, if_neg hr]
    exact ⟨_, _, hstep, by simp, by simp⟩

/-- Claim C7, witness: with clue `"A"` already peeked, a second peek
charges the repeat counter only. -/
theorem repeat_charge_spec_witness :
    ∃ s' f, stepTurn
        { initialPuzzle := "[A]".toList
          solutions := [("A".toList, "x".toList)]
          puzzleSolution := "x".toList }
        ({ initState
            { initialPuzzle := "[A]".toList
              solutions := [("A".toList, "x".toList)]
              puzzleSolution := "x".toList } with peeks := ["A".toList] },
          ["A".toList])
        (.peek "A".toList) = some (s', ["A".toList], f) ∧
      s'.repeat_peeks = 1 ∧ s'.peeks = ["A".toList] := by
  obtain ⟨s', f, hstep, hrp, hpk, _⟩ :=
    (repeat_charge_spec
      { initialPuzzle := "[A]".toList
        solutions := [("A".toList, "x".toList)]
        puzzleSolution := "x".toList }
      { initState
          { initialPuzzle := "[A]".toList
            solutions := [("A".toList, "x".toList)]
            puzzleSolution := "x".toList } with peeks := ["A".toList] }
      ["A".toList] "A".toList (by decide)).1 (by decide)
  exact ⟨s', f, hstep, by rw [hrp]; rfl, by rw [hpk]⟩

/-! ## Claim C9: peek indexes the first character unconditionally -/

/-- Claim C9: the first peek of an available clue succeeds exactly when the
clue's answer is a non-empty string; for an available clue whose answer is
empty the character access `solutions[target][0]` is out of bounds and the
step raises (modelled by `none`). -/
theorem peek_empty_answer_unsafe (p : Puzzle) (s : EvalState) (a : List Str)
    (target : Str) (hmem : target ∈ a) (hnew : target ∉ s.peeks) :
    (stepTurn p (s, a) (.peek target)).isSome = true ↔
      ∃ ans, solLookup p target = some ans ∧ ans ≠ [] := by
  simp only [stepTurn, peekStep]
  rw [if_pos hmem, if_neg hnew]
  cases hsl : solLookup p target with
  | none => simp
  | some ans =>
    cases ans with
    | nil => simp
    | cons c cs => simp

/-- Claim C9, witness: a puzzle whose single clue `"A"` has the empty
string as its answer; peeking the available clue `"A"` raises. -/
theorem peek_empty_answer_unsafe_witness :
    (stepTurn
        { initialPuzzle := "[A]".toList
          solutions := [("A".toList, "".toList)]
          puzzleSolution := "".toList }
        (initState
          { initialPuzzle := "[A]".toList
            solutions := [("A".toList, "".toList)]
            puzzleSolution := "".toList }, ["A".toList])
        (.peek "A".toList)).isSome = false := by
  have h := peek_empty_answer_unsafe
    { initialPuzzle := "[A]".toList
      solutions := [("A".toList, "".toList)]
      puzzleSolution := "".toList }
    (initState
      { initialPuzzle := "[A]".toList
        solutions := [("A".toList, "".toList)]
        puzzleSolution := "".toList })
    ["A".toList] "A".toList (by decide) (by decide)
  cases hb : (stepTurn
      { initialPuzzle := "[A]".toList
        solutions := [("A".toList, "".toList)]
        puzzleSolution := "".toList }
      (initState
        { initialPuzzle := "[A]".toList
          solutions := [("A".toList, "".toList)]
          puzzleSolution := "".toList }, ["A".toList])
      (.peek "A".toList)).isSome with
  | false => rfl
  | true =>
    obtain ⟨ans, hl, hne⟩ := h.1 hb
    have hl0 : solLookup
        { initialPuzzle := "[A]".toList
          solutions := [("A".toList, "".toList)]
          puzzleSolution := "".toList } "A".toList = some [] := by decide
    rw [hl0] at hl
    exact absurd (Option.some.inj hl).symm hne

/-! ## Claim C10: bracketed reveal arguments splat into `failed_reveals` -/

/-- Claim C10: `self.state['failed_reveals'] += target` in the bracket
guard appends each character of the argument as a separate element, so a
later `reveal` of an unavailable single-character target occurring in the
earlier argument takes the repeat branch — `repeat_reveals` is incremented
on what is actually that target's first failed reveal attempt. -/
theorem failed_reveals_char_splat (p : Puzzle) (s : EvalState) (a : List Str)
    (arg : Str) (c : Char) (hbr : '[' ∈ arg) (hc : c ∈ arg) (hcne : c ≠ '[')
    (hna : [c] ∉ a) (_hfirst : [c] ∉ s.failed_reveals) :
    ∃ s1 f1, stepTurn p (s, a) (.reveal arg) = some (s1, a, f1) ∧
      [c] ∈ s1.failed_reveals ∧ s1.repeat_reveals = s.repeat_reveals ∧
      ∃ s2 f2, stepTurn p (s1, a) (.reveal [c]) = some (s2, a, f2) ∧
        s2.repeat_reveals = s.repeat_reveals + 1 := by
  have hstep1 : stepTurn p (s, a) (.reveal arg) =
      some (checkCompletion p { s with
          failed_reveals := s.failed_reveals ++ arg.map (fun x => [x]) },
        a, .cannotRevealComposite arg) := by
    simp only [stepTurn, revealStep]
    rw [if_pos hbr]
  refine ⟨_, _, hstep1, ?_, by simp, ?_⟩
  · simp only [checkCompletion_failed_reveals]
    exact List.mem_append_right _ (List.mem_map.2 ⟨c, hc, rfl⟩)
  · have hmem1 : [c] ∈ (checkCompletion p { s with
        failed_reveals := s.failed_reveals ++ arg.map (fun x => [x]) }).failed_reveals := by
      simp only [checkCompletion_failed_reveals]
      exact List.mem_append_right _ (List.mem_map.2 ⟨c, hc, rfl⟩)
    have hnbr : ¬ '[' ∈ [c] := by
      intro h
      exact hcne (List.mem_singleton.1 h).symm
    have hstep2 : ∀ s1 : EvalState, [c] ∈ s1.failed_reveals →
        stepTurn p (s1, a) (.reveal [c]) =
          some (checkCompletion p { s1 with
              repeat_reveals := s1.repeat_reveals + 1
              failed_reveals := s1.failed_reveals ++ [[c]] },
            a, .alreadyFailedReveal) := by
      intro s1 hmem
      simp only [stepTurn, revealStep]
      rw [if_neg hnbr, if_neg hna, if_pos hmem]
    refine ⟨_, _, hstep2 _ hmem1, ?_⟩
    simp

/-- Claim C10, witness: `reveal "[A]"` followed by `reveal "A"` from a
state where `"A"` is unavailable and was never attempted. -/
theorem failed_reveals_char_splat_witness :
    ∃ s1 f1, stepTurn
        { initialPuzzle := "q".toList
          solutions := [("B".toList, "x".toList)]
          puzzleSolution := "x".toList }
        (initState
          { initialPuzzle := "q".toList
            solutions := [("B".toList, "x".toList)]
            puzzleSolution := "x".toList }, [])
        (.reveal "[A]".toList) = some (s1, [], f1) ∧
      ['A'] ∈ s1.failed_reveals ∧ s1.repeat_reveals = 0 ∧
      ∃ s2 f2, stepTurn
          { initialPuzzle := "q".toList
            solutions := [("B".toList, "x".toList)]
            puzzleSolution := "x".toList }
          (s1, []) (.reveal ['A']) = some (s2, [], f2) ∧
        s2.repeat_reveals = 0 + 1 :=
  failed_reveals_char_splat
    { initialPuzzle := "q".toList
      solutions := [("B".toList, "x".toList)]
      puzzleSolution := "x".toList }
    (initState
      { initialPuzzle := "q".toList
        solutions := [("B".toList, "x".toList)]
        puzzleSolution := "x".toList })
    [] "[A]".toList 'A' (by decide) (by decide) (by decide) (by decide) (by decide)

/-! ## Shape of the post-command state: always a `checkCompletion` result -/

theorem tryStep_shape (p : Puzzle) (s : EvalState) (a : List Str) (target : Str)
    (r : EvalState × List Str × Feedback) (h : tryStep p s a target = some r) :
    ∃ t, r.1 = checkCompletion p t := by
  unfold tryStep at h
  repeat' split at h
  all_goals try exact Option.noConfusion h
  all_goals (cases Option.some.inj h; exact ⟨_, rfl⟩)

theorem peekStep_shape (p : Puzzle) (s : EvalState) (a : List Str) (target : Str)
    (r : EvalState × List Str × Feedback) (h : peekStep p s a target = some r) :
    ∃ t, r.1 = checkCompletion p t := by
  unfold peekStep at h
  repeat' split at h
  all_goals try exact Option.noConfusion h
  all_goals (cases Option.some.inj h; exact ⟨_, rfl⟩)

theorem revealStep_shape (p : Puzzle) (s : EvalState) (a : List Str) (target : Str)
    (r : EvalState × List Str × Feedback) (h : revealStep p s a target = some r) :
    ∃ t, r.1 = checkCompletion p t := by
  unfold revealStep at h
  repeat' split at h
  all_goals try exact Option.noConfusion h
  all_goals (cases Option.some.inj h; exact ⟨_, rfl⟩)

theorem runFrom_succ (p : Puzzle) (resp : Nat → Command) (i fuel : Nat)
    (sa : EvalState × List Str) :
    runFrom p resp i (fuel + 1) sa =
      match stepTurn p sa (resp i) with
      | none => none
      | some (s', a', _) => runFrom p resp (i + 1) fuel (s', a') := rfl

/-! ## Claim C3: completion is flagged on the completing turn, but the
loop does not stop -/

/-- Claim C3 (amended): when a processed command leaves `puzzle_state`
equal to `puzzleSolution`, `completed` is set on that same turn; however
the turn loop contains no early exit — whenever a turn succeeds, the loop
simply continues with the remaining fuel, completion notwithstanding. -/
theorem completion_same_turn :
    (∀ (p : Puzzle) (s : EvalState) (a : List Str) (cmd : Command)
        (s' : EvalState) (a' : List Str) (f : Feedback),
        cmd ≠ .see → cmd ≠ .invalid →
        stepTurn p (s, a) cmd = some (s', a', f) →
        s'.puzzle_state = p.puzzleSolution → s'.completed = true) ∧
    (∀ (p : Puzzle) (resp : Nat → Command) (i fuel : Nat) (sa : EvalState × List Str)
        (s' : EvalState) (a' : List Str) (f : Feedback),
        stepTurn p sa (resp i) = some (s', a', f) →
        runFrom p resp i (fuel + 1) sa = runFrom p resp (i + 1) fuel (s', a')) := by
  constructor
  · intro p s a cmd s' a' f hsee hinv hstep hps
    have hshape : ∃ t, s' = checkCompletion p t := by
      cases cmd with
      | see => exact absurd rfl hsee
      | invalid => exact absurd rfl hinv
      | tryCmd target => exact tryStep_shape p s a target (s', a', f) hstep
      | peek target => exact peekStep_shape p s a target (s', a', f) hstep
      | reveal target => exact revealStep_shape p s a target (s', a', f) hstep
    obtain ⟨t, rfl⟩ := hshape
    rw [checkCompletion_puzzle_state] at hps
    exact checkCompletion_completed_of_eq p t hps
  · intro p resp i fuel sa s' a' f hstep
    rw [runFrom_succ, hstep]

/-- Claim C3 (counterexample): on a one-clue puzzle, the first turn's
correct `try` completes the puzzle (`completed = true`), yet the loop
processes a second command, which records a wrong guess — the turn loop
does not stop on the completing turn. -/
theorem completion_no_stop_counterexample :
    (runFrom
        { initialPuzzle := "[A]".toList
          solutions := [("A".toList, "x".toList)]
          puzzleSolution := "x".toList }
        (fun i => if i = 0 then .tryCmd "x".toList else .tryCmd "y".toList) 0 2
        (initState
          { initialPuzzle := "[A]".toList
            solutions := [("A".toList, "x".toList)]
            puzzleSolution := "x".toList },
          get_available_clues
            { initialPuzzle := "[A]".toList
              solutions := [("A".toList, "x".toList)]
              puzzleSolution := "x".toList } "[A]".toList)).map
        (fun sa => (sa.1.completed, sa.1.wrong_guesses)) = some (true, 1) := by
  decide

/-- Claim C3, witness for the amended theorem: a concrete completing
turn. -/
theorem completion_same_turn_witness :
    ∃ s' a' f, stepTurn
        { initialPuzzle := "[A]".toList
          solutions := [("A".toList, "x".toList)]
          puzzleSolution := "x".toList }
        (initState
          { initialPuzzle := "[A]".toList
            solutions := [("A".toList, "x".toList)]
            puzzleSolution := "x".toList }, ["A".toList])
        (.tryCmd "x".toList) = some (s', a', f) ∧ s'.completed = true := by
  cases hstep : stepTurn
      { initialPuzzle := "[A]".toList
        solutions := [("A".toList, "x".toList)]
        puzzleSolution := "x".toList }
      (initState
        { initialPuzzle := "[A]".toList
          solutions := [("A".toList, "x".toList)]
          puzzleSolution := "x".toList }, ["A".toList])
      (.tryCmd "x".toList) with
  | none =>
    have hs : (stepTurn
        { initialPuzzle := "[A]".toList
          solutions := [("A".toList, "x".toList)]
          puzzleSolution := "x".toList }
        (initState
          { initialPuzzle := "[A]".toList
            solutions := [("A".toList, "x".toList)]
            puzzleSolution := "x".toList }, ["A".toList])
        (.tryCmd "x".toList)).isSome = true := by decide
    rw [hstep] at hs
    exact Bool.noConfusion hs
  | some r =>
    have hps : (stepTurn
        { initialPuzzle := "[A]".toList
          solutions := [("A".toList, "x".toList)]
          puzzleSolution := "x".toList }
        (initState
          { initialPuzzle := "[A]".toList
            solutions := [("A".toList, "x".toList)]
            puzzleSolution := "x".toList }, ["A".toList])
        (.tryCmd "x".toList)).map (fun x => x.1.puzzle_state) = some "x".toList := by
      decide
    rw [hstep] at hps
    refine ⟨r.1, r.2.1, r.2.2, rfl, ?_⟩
    exact completion_same_turn.1 _ _ _ (.tryCmd "x".toList) r.1 r.2.1 r.2.2
      (by intro h; cases h) (by intro h; cases h) hstep (Option.some.inj hps)

/-! ## Claim C4: no stuck-state exit -/

/-- Claim C4 (amended): the only automatic termination is the fixed turn
budget (a `runFrom` with zero fuel stops); there is no stuck-state exit:
from a state whose available list is empty and whose text differs from
the solution, every command is still processed — the step succeeds, the
available list stays empty, the text is unchanged and `completed` is
unchanged. -/
theorem stuck_state_no_exit :
    (∀ (p : Puzzle) (resp : Nat → Command) (i : Nat) (sa : EvalState × List Str),
        runFrom p resp i 0 sa = some sa) ∧
    (∀ (p : Puzzle) (s : EvalState) (cmd : Command),
        s.puzzle_state ≠ p.puzzleSolution →
        ∃ s' f, stepTurn p (s, []) cmd = some (s', [], f) ∧
          s'.puzzle_state = s.puzzle_state ∧ s'.completed = s.completed) := by
  constructor
  · intro p resp i sa
    rfl
  · intro p s cmd hne
    cases cmd with
    | see => exact ⟨s, _, rfl, rfl, rfl⟩
    | invalid => exact ⟨s, _, rfl, rfl, rfl⟩
    | tryCmd target =>
      by_cases hmem : target ∈ s.failed_attempts
      · have hstep : stepTurn p (s, []) (.tryCmd target) =
            some (checkCompletion p { s with repeats := s.repeats + 1 }, [],
              .alreadyTriedWrong target) := by
          simp only [stepTurn, tryStep, tryFind]
          rw [if_pos hmem]
        exact ⟨_, _, hstep, by simp, checkCompletion_completed_of_ne p _ hne⟩
      · have hstep : stepTurn p (s, []) (.tryCmd target) =
            some (checkCompletion p { s with
                wrong_guesses := s.wrong_guesses + 1
                failed_attempts := s.failed_attempts ++ [target] }, [],
              .wrongGuess target) := by
          simp only [stepTurn, tryStep, tryFind]
          rw [if_neg hmem]
        exact ⟨_, _, hstep, by simp, checkCompletion_completed_of_ne p _ hne⟩
    | peek target =>
      have hnmem : ¬ target ∈ ([] : List Str) := by simp
      by_cases hfp : target ∈ s.failed_peeks
      · have hstep : stepTurn p (s, []) (.peek target) =
            some (checkCompletion p { s with repeat_peeks := s.repeat_peeks + 1 }, [],
              .alreadyFailedPeek) := by
          simp only [stepTurn, peekStep]
          rw [if_neg hnmem, if_pos hfp]
        exact ⟨_, _, hstep, by simp, checkCompletion_completed_of_ne p _ hne⟩
      · have hstep : stepTurn p (s, []) (.peek target) =
            some (checkCompletion p { s with
                failed_peeks := s.failed_peeks ++ [target] }, [],
              .cantPeek target) := by
          simp only [stepTurn, peekStep]
          rw [if_neg hnmem, if_neg hfp]
        exact ⟨_, _, hstep, by simp, checkCompletion_completed_of_ne p _ hne⟩
    | reveal target =>
      by_cases hbr : '[' ∈ target
      · have hstep : stepTurn p (s, []) (.reveal target) =
            some (checkCompletion p { s with
                failed_reveals := s.failed_reveals ++ target.map (fun x => [x]) }, [],
              .cannotRevealComposite target) := by
          simp only [stepTurn, revealStep]
          rw [if_pos hbr]
        exact ⟨_, _, hstep, by simp, checkCompletion_completed_of_ne p _ hne⟩
      · have hnmem : ¬ target ∈ ([] : List Str) := by simp
        by_cases hfr : target ∈ s.failed_reveals
        · have hstep : stepTurn p (s, []) (.reveal target) =
              some (checkCompletion p { s with
                  repeat_reveals := s.repeat_reveals + 1
                  failed_reveals := s.failed_reveals ++ [target] }, [],
                .alreadyFailedReveal) := by
            simp only [stepTurn, revealStep]
            rw [if_neg hbr, if_neg hnmem, if_pos hfr]
          exact ⟨_, _, hstep, by simp, checkCompletion_completed_of_ne p _ hne⟩
        · have hstep : stepTurn p (s, []) (.reveal target) =
              some (checkCompletion p { s with
                  failed_reveals := s.failed_reveals ++ [target] }, [],
                .cannotReveal target) := by
            simp only [stepTurn, revealStep]
            rw [if_neg hbr, if_neg hnmem, if_neg hfr]
          exact ⟨_, _, hstep, by simp, checkCompletion_completed_of_ne p _ hne⟩

/-- Claim C4 (counterexample): a stuck state — empty available list, text
differing from the solution — from which the loop still processes a
command (a wrong guess is recorded), refuting that no further command is
processed from a stuck state. -/
theorem stuck_state_counterexample :
    get_available_clues
        { initialPuzzle := "q".toList
          solutions := [("A".toList, "x".toList)]
          puzzleSolution := "x".toList } "q".toList = [] ∧
      "q".toList ≠ "x".toList ∧
      (runFrom
          { initialPuzzle := "q".toList
            solutions := [("A".toList, "x".toList)]
            puzzleSolution := "x".toList }
          (fun _ => .tryCmd "z".toList) 0 1
          (initState
            { initialPuzzle := "q".toList
              solutions := [("A".toList, "x".toList)]
              puzzleSolution := "x".toList },
            get_available_clues
              { initialPuzzle := "q".toList
                solutions := [("A".toList, "x".toList)]
                puzzleSolution := "x".toList } "q".toList)).map
          (fun sa => (sa.1.wrong_guesses, sa.1.completed)) = some (1, false) := by
  decide

/-- Claim C4, witness for the amended theorem: a concrete stuck state
still processes a `try`. -/
theorem stuck_state_no_exit_witness :
    ∃ s' f, stepTurn
        { initialPuzzle := "q".toList
          solutions := [("A".toList, "x".toList)]
          puzzleSolution := "x".toList }
        (initState
          { initialPuzzle := "q".toList
            solutions := [("A".toList, "x".toList)]
            puzzleSolution := "x".toList }, [])
        (.tryCmd "z".toList) = some (s', [], f) ∧
      s'.puzzle_state = "q".toList ∧ s'.completed = false := by
  obtain ⟨s', f, hstep, hps, hcomp⟩ := stuck_state_no_exit.2
    { initialPuzzle := "q".toList
      solutions := [("A".toList, "x".toList)]
      puzzleSolution := "x".toList }
    (initState
      { initialPuzzle := "q".toList
        solutions := [("A".toList, "x".toList)]
        puzzleSolution := "x".toList })
    (.tryCmd "z".toList) (by decide)
  exact ⟨s', f, hstep, hps, hcomp⟩

/-! ## Claim C8: the retry loop of `get_llm_response` -/

theorem range_map_backoff (cf m : Nat) :
    (1 + 5 * cf) :: (List.range m).map (fun j => 1 + 5 * (cf + 1 + j)) =
      (List.range (m + 1)).map (fun j => 1 + 5 * (cf + j)) := by
  rw [List.range_succ_eq_map, List.map_cons, List.map_map]
  have hfun : ((fun j => 1 + 5 * (cf + j)) ∘ Nat.succ) =
      (fun j => 1 + 5 * (cf + 1 + j)) := by
    funext j
    simp only [Function.comp_apply]
    omega
  rw [hfun]
  simp

theorem llmLoop_success (outcomes : Nat → Option Str) (m : Nat) :
    ∀ (attempt cf : Nat) (sleeps : List Nat) (r : Str),
      (∀ i, i < m → outcomes (attempt + i) = none) →
      outcomes (attempt + m) = some r → cf + m ≤ 5 →
      llmLoop outcomes attempt cf sleeps =
        (some r, sleeps ++ (List.range m).map (fun j => 1 + 5 * (cf + j))) := by
  induction m with
  | zero =>
    intro attempt cf sleeps r _h0 hm _hle
    rw [Nat.add_zero] at hm
    rw [llmLoop, hm]
    simp
  | succ m ih =>
    intro attempt cf sleeps r h0 hm hle
    have ha : outcomes attempt = none := by
      have h := h0 0 (Nat.succ_pos m)
      rwa [Nat.add_zero] at h
    rw [llmLoop, ha, dif_neg (by omega : ¬ 5 ≤ cf)]
    have h0' : ∀ i, i < m → outcomes (attempt + 1 + i) = none := by
      intro i hi
      have h := h0 (i + 1) (by omega)
      rwa [show attempt + (i + 1) = attempt + 1 + i by omega] at h
    have hm' : outcomes (attempt + 1 + m) = some r := by
      rwa [show attempt + (m + 1) = attempt + 1 + m by omega] at hm
    rw [ih (attempt + 1) (cf + 1) (sleeps ++ [1 + 5 * cf]) r h0' hm' (by omega)]
    rw [List.append_assoc]
    rw [show [1 + 5 * cf] ++ (List.range m).map (fun j => 1 + 5 * (cf + 1 + j)) =
        (1 + 5 * cf) :: (List.range m).map (fun j => 1 + 5 * (cf + 1 + j)) from rfl]
    rw [range_map_backoff]

theorem llmLoop_failure (outcomes : Nat → Option Str) (n : Nat) :
    ∀ (attempt cf : Nat) (sleeps : List Nat),
      cf + n = 5 → (∀ i, i ≤ n → outcomes (attempt + i) = none) →
      llmLoop outcomes attempt cf sleeps =
        (none, sleeps ++ (List.range n).map (fun j => 1 + 5 * (cf + j))) := by
  induction n with
  | zero =>
    intro attempt cf sleeps hcf h0
    have ha : outcomes attempt = none := by
      have h := h0 0 (Nat.le_refl 0)
      rwa [Nat.add_zero] at h
    rw [llmLoop, ha, dif_pos (by omega : 5 ≤ cf)]
    simp
  | succ n ih =>
    intro attempt cf sleeps hcf h0
    have ha : outcomes attempt = none := by
      have h := h0 0 (Nat.zero_le _)
      rwa [Nat.add_zero] at h
    rw [llmLoop, ha, dif_neg (by omega : ¬ 5 ≤ cf)]
    have h0' : ∀ i, i ≤ n → outcomes (attempt + 1 + i) = none := by
      intro i hi
      have h := h0 (i + 1) (by omega)
      rwa [show attempt + (i + 1) = attempt + 1 + i by omega] at h
    rw [ih (attempt + 1) (cf + 1) (sleeps ++ [1 + 5 * cf]) (by omega) h0']
    rw [List.append_assoc]
    rw [show [1 + 5 * cf] ++ (List.range n).map (fun j => 1 + 5 * (cf + 1 + j)) =
        (1 + 5 * cf) :: (List.range n).map (fun j => 1 + 5 * (cf + 1 + j)) from rfl]
    rw [range_map_backoff]

/-- Claim C8: with outcomes failing on the first `k` attempts (`k ≤ 5`)
and succeeding on attempt `k`, `get_llm_response` performs exactly the
backoff sleeps `1 + 5*j` before the `j`-th retry (`j` counted from 0, the
value of `consecutive_failures` at that point) and returns the success;
six consecutive failures re-raise the error (result `none`, fatal to the
run) after the five sleeps `1, 6, 11, 16, 21`; and a successful attempt
returns immediately whatever the failure count. -/
theorem get_llm_response_retry_spec :
    (∀ (outcomes : Nat → Option Str) (k : Nat) (r : Str),
        (∀ i, i < k → outcomes i = none) → outcomes k = some r → k ≤ 5 →
        get_llm_response outcomes =
          (some r, (List.range k).map (fun j => 1 + 5 * j))) ∧
    (∀ outcomes : Nat → Option Str,
        (∀ i, i ≤ 5 → outcomes i = none) →
        get_llm_response outcomes =
          (none, (List.range 5).map (fun j => 1 + 5 * j))) ∧
    (∀ (outcomes : Nat → Option Str) (attempt cf : Nat) (sleeps : List Nat) (r : Str),
        outcomes attempt = some r →
        llmLoop outcomes attempt cf sleeps = (some r, sleeps)) := by
  have hzero : (fun j => 1 + 5 * (0 + j)) = (fun j : Nat => 1 + 5 * j) := by
    funext j
    omega
  refine ⟨?_, ?_, ?_⟩
  · intro outcomes k r h0 hk hle
    have h := llmLoop_success outcomes k 0 0 [] r
      (by intro i hi; have := h0 i hi; rwa [Nat.zero_add]) (by rwa [Nat.zero_add])
      (by omega)
    rw [get_llm_response, h, hzero, List.nil_append]
  · intro outcomes h0
    have h := llmLoop_failure outcomes 5 0 0 []
      (by omega) (by intro i hi; have := h0 i hi; rwa [Nat.zero_add])
    rw [get_llm_response, h, hzero, List.nil_append]
  · intro outcomes attempt cf sleeps r h
    rw [llmLoop, h]

/-- Claim C8, witness: two transient failures then a success — sleeps of
1 and 6 time units, then the response is returned. -/
theorem get_llm_response_retry_spec_witness :
    get_llm_response (fun i => if i < 2 then none else some "ok".toList) =
      (some "ok".toList, [1, 6]) := by
  have h := get_llm_response_retry_spec.1
    (fun i => if i < 2 then none else some "ok".toList) 2 "ok".toList
    (by intro i hi; simp [hi]) (by norm_num) (by norm_num)
  rw [h]
  rfl

end BracketCity
